import Mathlib

/-!
Verification of the admission-control core of the Kiddos backend.

The definitions below are a shallow embedding of the Python source:

* `check_rate_limit` embeds `RateLimiter.check_rate_limit`
  (src/app/rate_limiter.py), built on Redis sorted-set semantics.  The
  per-key sorted set is a list of rational scores; `prune` embeds
  `zremrangebyscore(key, 0, now - window_seconds)`, `zinsert` embeds
  `zadd(key, {str(now): now})` (member uniqueness), `oldestScore` embeds
  `zrange(key, 0, 0, withscores=True)`.  The `avail` flag models Redis
  availability: the `RedisManager` wrapper methods in src/app/database.py
  catch every exception themselves and return defaults (0 removed, 0
  cardinality, insert dropped), so an unavailable store yields default
  results rather than a raised exception.
* `rateLimitsLookup` embeds the `RATE_LIMITS` table of src/app/config.py
  with the default settings values.
* `generate_content_gate` embeds the credit check of the
  `generate_content` endpoint (src/app/routers/content.py) and
  `generate_content_task_charge` embeds the credit-charging block of
  `generate_content_task` (src/app/worker.py).
* `calculate_content_cost` embeds the function of the same name in
  src/app/models.py.
* `add_credits` / `can_earn_credits` embed `MonthlyCreditEarning` in
  src/app/fixed_content/models.py.

Machine reals (Python floats) are modelled as rationals; Python `int()`
truncation toward zero is `pytrunc`.
-/

/-- Result triple of `RateLimiter.check_rate_limit`:
`(allowed, remaining, retry_after)`. -/
structure Decision where
  allowed : Bool
  remaining : ℤ
  retryAfter : ℤ
deriving Repr, DecidableEq

/-- The per-key Redis sorted set: list of scores (timestamps). -/
abbrev Store := List ℚ

/-- Python `int()` on a real value: truncation toward zero.  On a
rational in lowest terms this is the numerator divided by the
denominator, rounding toward zero. -/
def pytrunc (q : ℚ) : ℤ := q.num.tdiv q.den

/-- On non-negative values Python truncation agrees with the
mathematical floor. -/
theorem pytrunc_eq_floor (q : ℚ) (h : 0 ≤ q) : pytrunc q = ⌊q⌋ := by
  rw [pytrunc, Rat.floor_def]
  exact Int.tdiv_eq_ediv (Rat.num_nonneg.mpr h) (Int.ofNat_nonneg q.den)

/-- Membership test of `zremrangebyscore key 0 hi`: an entry is kept iff
its score is NOT in the closed interval `[0, hi]`. -/
def keepB (hi : ℚ) (s : ℚ) : Bool := !(decide (0 ≤ s) && decide (s ≤ hi))

/-- `zremrangebyscore(key, 0, hi)`: remove all scores in `[0, hi]`. -/
def prune (store : Store) (hi : ℚ) : Store := store.filter (keepB hi)

/-- `zadd(key, {str(now): now})`: sorted-set members are unique, so adding
an existing member leaves the set unchanged. -/
def zinsert (store : Store) (x : ℚ) : Store :=
  if x ∈ store then store else store ++ [x]

/-- `zrange(key, 0, 0, withscores=True)`: the least score, if any. -/
def oldestScore (store : Store) : Option ℚ := store.min?

/-- Core sliding-window algorithm of `check_rate_limit` once a
`(max_requests, window_seconds)` pair is resolved and Redis is up
(lines 68-97 of src/app/rate_limiter.py). -/
def checkCore (maxRequests windowSeconds : ℕ) (store : Store) (now : ℚ) :
    Decision × Store :=
  let store1 := prune store (now - (windowSeconds : ℚ))
  let count := store1.length
  if maxRequests ≤ count then
    let retry : ℤ :=
      match oldestScore store1 with
      | some t => max 1 (pytrunc (t + (windowSeconds : ℚ) - now))
      | none => (windowSeconds : ℤ)
    (⟨false, 0, retry⟩, store1)
  else
    (⟨true, (maxRequests : ℤ) - (count : ℤ) - 1, 0⟩, zinsert store1 now)

/-- The same code path when Redis is unavailable: every `RedisManager`
wrapper catches its own exception and returns a default
(`zremrangebyscore` removes nothing and returns 0, `zcard` returns 0,
`_get_oldest_score` returns `[]`, `zadd` inserts nothing), so the body
runs to completion on default values. -/
def checkCoreDown (maxRequests windowSeconds : ℕ) (store : Store) :
    Decision × Store :=
  if maxRequests ≤ 0 then
    (⟨false, 0, (windowSeconds : ℤ)⟩, store)
  else
    (⟨true, (maxRequests : ℤ) - 1, 0⟩, store)

/-- The `RATE_LIMITS` table of src/app/config.py, `(max_requests,
window_seconds)` per `(tier, limit_type)`, with the default settings
values (FREE_TIER_CONTENT_PER_HOUR = 3, FREE_TIER_CONTENT_PER_DAY = 10,
BASIC 10/50, FAMILY 20/150). -/
def rateLimitsLookup (tier lt : String) : Option (ℕ × ℕ) :=
  if tier = "free" then
    if lt = "content" then some (3, 3600)
    else if lt = "content_daily" then some (10, 86400)
    else if lt = "login" then some (5, 300)
    else if lt = "api" then some (100, 3600)
    else if lt = "registration" then some (30, 86400)
    else none
  else if tier = "basic" then
    if lt = "content" then some (10, 3600)
    else if lt = "content_daily" then some (50, 86400)
    else if lt = "login" then some (10, 300)
    else if lt = "api" then some (500, 3600)
    else if lt = "registration" then some (5, 86400)
    else none
  else if tier = "family" then
    if lt = "content" then some (20, 3600)
    else if lt = "content_daily" then some (150, 86400)
    else if lt = "login" then some (15, 300)
    else if lt = "api" then some (1000, 3600)
    else if lt = "registration" then some (5, 86400)
    else none
  else none

/-- Limit resolution at the top of `check_rate_limit` (lines 60-66):
a configured `RATE_LIMITS[tier][limit_type]` pair overrides any
caller-supplied `max_requests` / `window_seconds`; with no configured
pair, caller values are used only when both are truthy (present and
nonzero), else the call is unlimited. -/
def resolveLimits (tier lt : String) (wOpt mOpt : Option ℕ) :
    Option (ℕ × ℕ) :=
  match rateLimitsLookup tier lt with
  | some p => some p
  | none =>
    match wOpt, mOpt with
    | some w, some m => if w ≠ 0 ∧ m ≠ 0 then some (m, w) else none
    | _, _ => none

/-- `RateLimiter.check_rate_limit(identifier, limit_type, tier,
window_seconds, max_requests)` for one fixed key, over store state
`store` at wall-clock `now`.  `avail` tells whether Redis is reachable.
Returns the decision triple and the new store state. -/
def check_rate_limit (avail : Bool) (tier lt : String)
    (wOpt mOpt : Option ℕ) (store : Store) (now : ℚ) : Decision × Store :=
  match resolveLimits tier lt wOpt mOpt with
  | none => (⟨true, 999, 0⟩, store)
  | some (m, w) =>
    if avail then checkCore m w store now else checkCoreDown m w store

/-- Run a sequence of calls through `checkCore` on one key, collecting
the timestamps of the admitted calls. -/
def admittedCore (q w : ℕ) : Store → List ℚ → List ℚ
  | _, [] => []
  | store, t :: ts =>
    let r := checkCore q w store t
    if r.1.allowed then t :: admittedCore q w r.2 ts
    else admittedCore q w r.2 ts

/-- Run a sequence of calls through `check_rate_limit` (store up, no
caller-supplied limits) on one key, collecting admitted timestamps. -/
def admittedTimes (tier lt : String) : Store → List ℚ → List ℚ
  | _, [] => []
  | store, t :: ts =>
    let r := check_rate_limit true tier lt none none store t
    if r.1.allowed then t :: admittedTimes tier lt r.2 ts
    else admittedTimes tier lt r.2 ts

/-- C9: with no QuotaPolicy configured for `(tier, actionType)` and no
caller-supplied limits, `check_rate_limit` treats the action as
unlimited: it returns `allowed = true`, remaining 999, retry 0, leaves
the store untouched, and (being a total function of its inputs) raises
no error — whether or not Redis is available. -/
theorem check_rate_limit_unconfigured_unlimited
    (tier lt : String) (hcfg : rateLimitsLookup tier lt = none)
    (avail : Bool) (store : Store) (now : ℚ) :
    check_rate_limit avail tier lt none none store now =
      (⟨true, 999, 0⟩, store) := by
  simp [check_rate_limit, resolveLimits, hcfg]

/-- Witness for C9: the pair (tier "free", action "password_reset") has
no configured policy; a call is admitted with remaining 999. -/
theorem check_rate_limit_unconfigured_unlimited_witness :
    rateLimitsLookup "free" "password_reset" = none ∧
    check_rate_limit true "free" "password_reset" none none [(1 : ℚ)] 2 =
      (⟨true, 999, 0⟩, [(1 : ℚ)]) :=
  ⟨by decide,
   check_rate_limit_unconfigured_unlimited "free" "password_reset"
     (by decide) true [(1 : ℚ)] 2⟩

/-! ### Credit admission and worker charge (src/app/routers/content.py, src/app/worker.py) -/

/-- Per-account credit state: integer balance (`User.credits`) and the
list of signed amounts of its `CreditTransaction` records. -/
structure Ledger where
  credits : ℤ
  transactions : List ℤ
deriving Repr, DecidableEq

/-- The credit gate of the `generate_content` endpoint
(src/app/routers/content.py lines 71-76): if `current_user.credits <
credit_cost` the request is rejected with HTTP 402 and nothing is
mutated; otherwise the session is created and the task queued.  In both
cases the balance and the transaction log are left unchanged at
admission time — the charge happens later, in the worker. -/
def generate_content_gate (st : Ledger) (cost : ℤ) : Bool × Ledger :=
  if st.credits < cost then (false, st) else (true, st)

/-- The credit-charging block of `generate_content_task`
(src/app/worker.py lines 629-658): if the session is not yet charged,
re-read the user, raise (caught and logged, no mutation) when
`user.credits < session.credits_cost`, otherwise decrement the balance
and append a `consumption` transaction with `amount = -credits_cost`.
Returns the new ledger and the new `credits_charged` flag. -/
def generate_content_task_charge (st : Ledger) (cost : ℤ)
    (creditsCharged : Bool) : Ledger × Bool :=
  if creditsCharged then (st, true)
  else if st.credits < cost then (st, false)
  else ({ credits := st.credits - cost,
          transactions := st.transactions ++ [-cost] }, true)

/-- C2 counterexample: the claim says a reservation with sufficient
balance decrements the balance at admission time, so for balance 3 and
cost 3 the balance after admission would be 0.  In the code the
admission step leaves the balance at 3 (the decrement happens later in
the worker). -/
theorem generate_content_gate_no_decrement_at_admission :
    generate_content_gate ⟨3, []⟩ 3 = (true, ⟨3, []⟩) ∧ (3 : ℤ) ≠ 0 := by
  constructor
  · decide
  · decide

/-- C2 (amended): for `cost > 0`, admission reads the balance; if
`balance < cost` it rejects leaving balance and transaction log
unchanged; otherwise it admits, also leaving the ledger unchanged at
admission time, and the worker charge performed after generation
decrements the balance by `cost` and appends a consumption transaction
with amount `-cost`, so the balance after the worker charge is
`balance - cost`. -/
theorem generate_content_admission_then_worker_charge
    (st : Ledger) (cost : ℤ) (hpos : 0 < cost) :
    (st.credits < cost → generate_content_gate st cost = (false, st)) ∧
    (cost ≤ st.credits →
      generate_content_gate st cost = (true, st) ∧
      generate_content_task_charge st cost false =
        ({ credits := st.credits - cost,
           transactions := st.transactions ++ [-cost] }, true)) := by
  constructor
  · intro h
    simp [generate_content_gate, h]
  · intro h
    refine ⟨?_, ?_⟩
    · simp [generate_content_gate, not_lt.mpr h]
    · simp [generate_content_task_charge, not_lt.mpr h]

/-- Witness for C2 (amended): balance 3.  Cost 4 is rejected with the
ledger unchanged; cost 3 is admitted with the ledger unchanged at
admission, and the worker charge then leaves balance 0 and logs a
`-3` consumption transaction. -/
theorem generate_content_admission_then_worker_charge_witness :
    ((3 : ℤ) < 4 ∧ generate_content_gate ⟨3, []⟩ 4 = (false, ⟨3, []⟩)) ∧
    ((3 : ℤ) ≤ 3 ∧ generate_content_gate ⟨3, []⟩ 3 = (true, ⟨3, []⟩) ∧
      generate_content_task_charge ⟨3, []⟩ 3 false = (⟨0, [-3]⟩, true)) := by
  refine ⟨⟨by decide, ?_⟩, ⟨by decide, ?_, ?_⟩⟩
  · exact (generate_content_admission_then_worker_charge ⟨3, []⟩ 4
      (by decide)).1 (by decide)
  · exact ((generate_content_admission_then_worker_charge ⟨3, []⟩ 3
      (by decide)).2 (by decide)).1
  · have h := ((generate_content_admission_then_worker_charge ⟨3, []⟩ 3
      (by decide)).2 (by decide)).2
    simpa using h

/-! ### Credit balance invariant (C8) -/

/-- The balance-mutating operations the claim ranges over: a credit
purchase (src/app/worker.py line 808, src/app/routers/credits.py) and a
guarded consumption charge (src/app/worker.py lines 629-658). -/
inductive CreditOp where
  | purchase (amt : ℤ)
  | charge (cost : ℤ)
deriving Repr, DecidableEq

/-- Effect of one operation on the balance: a purchase adds its amount;
a charge first verifies `balance ≥ cost` and declines (no mutation)
otherwise, exactly as the worker charging block does. -/
def applyOp (bal : ℤ) : CreditOp → ℤ
  | .purchase a => bal + a
  | .charge c => if bal < c then bal else bal - c

/-- Final balance after a sequence of operations. -/
def runOps (bal : ℤ) : List CreditOp → ℤ
  | [] => bal
  | op :: ops => runOps (applyOp bal op) ops

/-- Sum of all purchase amounts in a sequence. -/
def purchaseSum : List CreditOp → ℤ
  | [] => 0
  | .purchase a :: ops => a + purchaseSum ops
  | .charge _ :: ops => purchaseSum ops

/-- Sum of the successfully admitted consumption charges of a sequence,
starting from balance `bal`. -/
def admittedSum (bal : ℤ) : List CreditOp → ℤ
  | [] => 0
  | .purchase a :: ops => admittedSum (bal + a) ops
  | .charge c :: ops =>
    if bal < c then admittedSum bal ops
    else c + admittedSum (bal - c) ops

/-- A purchase with a non-negative amount (the code only creates
purchases of positive credit packages). -/
def purchaseNonneg : CreditOp → Bool
  | .purchase a => decide (0 ≤ a)
  | .charge _ => true

/-- C8: a charge with insufficient balance declines without mutation;
starting from a non-negative balance, after any sequence of purchases
and guarded charges the final balance equals the initial balance plus
the purchases minus the admitted consumptions, and never goes
negative. -/
theorem credit_balance_invariant (bal : ℤ) (ops : List CreditOp)
    (hbal : 0 ≤ bal) (hp : ∀ op ∈ ops, purchaseNonneg op = true) :
    (∀ (b c : ℤ), b < c → applyOp b (.charge c) = b) ∧
    runOps bal ops = bal + purchaseSum ops - admittedSum bal ops ∧
    0 ≤ runOps bal ops := by
  refine ⟨fun b c h => by simp [applyOp, h], ?_⟩
  induction ops generalizing bal with
  | nil => simpa [runOps, purchaseSum, admittedSum] using hbal
  | cons op ops ih =>
    cases op with
    | purchase a =>
      have ha : (0 : ℤ) ≤ a := by
        have := hp (.purchase a) (by simp)
        simpa [purchaseNonneg] using this
      have h := ih (bal + a) (by linarith)
        (fun op hop => hp op (by simp [hop]))
      refine ⟨?_, h.2⟩
      simp only [runOps, applyOp, purchaseSum, admittedSum]
      rw [h.1]
      ring
    | charge c =>
      by_cases hc : bal < c
      · have h := ih bal hbal (fun op hop => hp op (by simp [hop]))
        refine ⟨?_, ?_⟩
        · simp only [runOps, applyOp, purchaseSum, admittedSum, if_pos hc]
          rw [h.1]
        · simpa [runOps, applyOp, if_pos hc] using h.2
      · have hle : c ≤ bal := not_lt.mp hc
        have h := ih (bal - c) (by linarith)
          (fun op hop => hp op (by simp [hop]))
        refine ⟨?_, ?_⟩
        · simp only [runOps, applyOp, purchaseSum, admittedSum, if_neg hc]
          rw [h.1]
          ring
        · simpa [runOps, applyOp, if_neg hc] using h.2

/-- Witness for C8: from balance 3, charging 4 is declined, charging 3
is admitted, purchasing 2 adds 2; final balance is 3 + 2 - 3 = 2 ≥ 0. -/
theorem credit_balance_invariant_witness :
    (0 : ℤ) ≤ 3 ∧
    runOps 3 [.charge 4, .charge 3, .purchase 2] =
      3 + purchaseSum [.charge 4, .charge 3, .purchase 2] -
        admittedSum 3 [.charge 4, .charge 3, .purchase 2] ∧
    0 ≤ runOps 3 [.charge 4, .charge 3, .purchase 2] :=
  ⟨by decide,
   (credit_balance_invariant 3 [.charge 4, .charge 3, .purchase 2]
     (by decide) (by decide)).2.1,
   (credit_balance_invariant 3 [.charge 4, .charge 3, .purchase 2]
     (by decide) (by decide)).2.2⟩

/-! ### Content cost (src/app/models.py, `calculate_content_cost`) -/

/-- `base_costs` table of `calculate_content_cost`; `dict.get(ct, 1)`
defaults to 1 for unknown content types. -/
def base_costs (ct : String) : ℤ :=
  if ct = "story" then 1
  else if ct = "worksheet" then 2
  else if ct = "quiz" then 2
  else if ct = "exercise" then 1
  else 1

/-- `tier_multipliers` table of `calculate_content_cost`;
`dict.get(tier, 1.0)` defaults to 1 for unknown tiers. -/
def tier_multipliers (tier : String) : ℚ :=
  if tier = "free" then 1
  else if tier = "premium" then 4 / 5
  else if tier = "enterprise" then 1 / 2
  else 1

/-- `calculate_content_cost(content_type, user_tier, include_images)`
from src/app/models.py: `max(1, int((base + image) * multiplier))`. -/
def calculate_content_cost (ct tier : String) (includeImages : Bool) : ℤ :=
  let base := base_costs ct
  let image : ℤ := if includeImages then 2 else 0
  let total := pytrunc (((base + image : ℤ) : ℚ) * tier_multipliers tier)
  max 1 total

/-- The cost formula in the words of the spec:
`max(1, floor((baseCost[contentType] + (includeImages ? 2 : 0)) *
tierMultiplier))` with baseCost story=1, worksheet=2, quiz=2,
exercise=1. -/
def quoteSpec (ct tier : String) (includeImages : Bool) : ℤ :=
  let specBase : ℤ :=
    if ct = "story" then 1
    else if ct = "worksheet" then 2
    else if ct = "quiz" then 2
    else 1
  let surcharge : ℤ := if includeImages then 2 else 0
  max 1 ⌊((specBase + surcharge : ℤ) : ℚ) * tier_multipliers tier⌋

/-- Multipliers are non-negative, so Python truncation agrees with
mathematical floor in the cost computation. -/
theorem tier_multipliers_nonneg (tier : String) : 0 ≤ tier_multipliers tier := by
  unfold tier_multipliers
  split_ifs <;> norm_num

/-- C6: on the four content types, `calculate_content_cost` equals the
spec formula `max(1, floor((baseCost + surcharge) * tierMultiplier))`;
concretely a free-tier story without images costs 1 and a free-tier
worksheet with images costs 4; and every cost is at least 1 for every
input whatsoever.  The function is a plain function of its arguments
(deterministic, no side effects). -/
theorem calculate_content_cost_correct :
    (∀ ct ∈ ["story", "worksheet", "quiz", "exercise"],
      ∀ (tier : String) (includeImages : Bool),
        calculate_content_cost ct tier includeImages =
          quoteSpec ct tier includeImages) ∧
    calculate_content_cost "story" "free" false = 1 ∧
    calculate_content_cost "worksheet" "free" true = 4 ∧
    (∀ (ct tier : String) (includeImages : Bool),
      1 ≤ calculate_content_cost ct tier includeImages) := by
  have hbase : ∀ ct : String, 0 ≤ base_costs ct := by
    intro ct
    unfold base_costs
    split_ifs <;> norm_num
  have htrunc : ∀ (ct tier : String) (b : Bool),
      pytrunc (((base_costs ct + if b then (2 : ℤ) else 0 : ℤ) : ℚ) *
          tier_multipliers tier) =
        ⌊((base_costs ct + if b then (2 : ℤ) else 0 : ℤ) : ℚ) *
          tier_multipliers tier⌋ := by
    intro ct tier b
    apply pytrunc_eq_floor
    apply mul_nonneg
    · have h1 := hbase ct
      have h2 : (0 : ℤ) ≤ (if b then (2 : ℤ) else 0) := by
        cases b <;> norm_num
      exact_mod_cast add_nonneg h1 h2
    · exact tier_multipliers_nonneg tier
  have hm1 : tier_multipliers "free" = 1 := by decide
  have hb1 : base_costs "story" = 1 := by decide
  have hb2 : base_costs "worksheet" = 2 := by decide
  refine ⟨?_,
    by simp only [calculate_content_cost, hb1, hm1]
       norm_num [pytrunc, Int.tdiv],
    by simp only [calculate_content_cost, hb2, hm1]
       norm_num [pytrunc, Int.tdiv], ?_⟩
  · intro ct hct tier includeImages
    have hspec : (if ct = "story" then (1 : ℤ)
        else if ct = "worksheet" then 2
        else if ct = "quiz" then 2
        else 1) = base_costs ct := by
      simp only [List.mem_cons, List.not_mem_nil, or_false] at hct
      rcases hct with h | h | h | h <;> subst h <;> decide
    simp only [calculate_content_cost, quoteSpec, htrunc ct tier includeImages,
      hspec]
  · intro ct tier includeImages
    simp only [calculate_content_cost]
    exact le_max_left 1 _

/-- Witness for C6: applying the formula equality at concrete inputs. -/
theorem calculate_content_cost_correct_witness :
    calculate_content_cost "story" "free" false = quoteSpec "story" "free" false ∧
    calculate_content_cost "worksheet" "premium" true =
      quoteSpec "worksheet" "premium" true ∧
    1 ≤ calculate_content_cost "unknown" "enterprise" false :=
  ⟨calculate_content_cost_correct.1 "story" (by decide) "free" false,
   calculate_content_cost_correct.1 "worksheet" (by decide) "premium" true,
   calculate_content_cost_correct.2.2.2 "unknown" "enterprise" false⟩

/-! ### Monthly capped credit earning (src/app/fixed_content/models.py) -/

/-- The fields of `MonthlyCreditEarning` used by the capped-award logic
(Float columns modelled as rationals). -/
structure MonthlyCreditEarning where
  earnedCourses : ℚ
  earnedBonuses : ℚ
  earnedTotal : ℚ
  cap : ℚ
  capReached : Bool
deriving Repr, DecidableEq

/-- `MonthlyCreditEarning.can_earn_credits(amount)`:
`(credits_earned_total + amount) <= monthly_cap`. -/
def can_earn_credits (e : MonthlyCreditEarning) (amount : ℚ) : Bool :=
  decide (e.earnedTotal + amount ≤ e.cap)

/-- `MonthlyCreditEarning.add_credits(amount, source)`: clamp the award
to the remaining headroom when it would exceed the cap, then add it to
the per-source and total counters and set `cap_reached` when the total
reaches the cap.  Returns the awarded amount and the new record. -/
def add_credits (e : MonthlyCreditEarning) (amount : ℚ)
    (sourceCourse : Bool) : ℚ × MonthlyCreditEarning :=
  let amount :=
    if ¬ can_earn_credits e amount then
      min amount (max 0 (e.cap - e.earnedTotal))
    else amount
  if 0 < amount then
    (amount,
     { earnedCourses :=
         if sourceCourse then e.earnedCourses + amount else e.earnedCourses,
       earnedBonuses :=
         if sourceCourse then e.earnedBonuses else e.earnedBonuses + amount,
       earnedTotal := e.earnedTotal + amount,
       cap := e.cap,
       capReached :=
         if e.cap ≤ e.earnedTotal + amount then true else e.capReached })
  else (amount, e)

/-- C7: for a non-negative award request against a record whose
`capReached` flag is consistent with its counters, `add_credits` awards
exactly `min(amount, max(0, cap - earned))` — 0 when `earned ≥ cap`,
exactly `amount` when `earned + amount ≤ cap`, never more than the
headroom — the total increases by the awarded value, and afterwards
`capReached` holds exactly when the new total reaches the cap. -/
theorem add_credits_capped (e : MonthlyCreditEarning) (amount : ℚ)
    (sourceCourse : Bool) (hamt : 0 ≤ amount)
    (hflag : e.capReached = decide (e.cap ≤ e.earnedTotal)) :
    (add_credits e amount sourceCourse).1 =
      min amount (max 0 (e.cap - e.earnedTotal)) ∧
    (e.cap ≤ e.earnedTotal → (add_credits e amount sourceCourse).1 = 0) ∧
    (e.earnedTotal + amount ≤ e.cap →
      (add_credits e amount sourceCourse).1 = amount) ∧
    (add_credits e amount sourceCourse).1 ≤ max 0 (e.cap - e.earnedTotal) ∧
    (add_credits e amount sourceCourse).2.earnedTotal =
      e.earnedTotal + (add_credits e amount sourceCourse).1 ∧
    ((add_credits e amount sourceCourse).2.capReached =
      decide (e.cap ≤ (add_credits e amount sourceCourse).2.earnedTotal)) := by
  by_cases hce : e.earnedTotal + amount ≤ e.cap
  · -- no clamping: the requested amount fits under the cap
    have hcan : can_earn_credits e amount = true := by
      simp [can_earn_credits, hce]
    have hmin : min amount (max 0 (e.cap - e.earnedTotal)) = amount := by
      have hhead : amount ≤ max 0 (e.cap - e.earnedTotal) :=
        le_max_of_le_right (by linarith)
      exact min_eq_left hhead
    by_cases hpos : 0 < amount
    · have hres : add_credits e amount sourceCourse =
          (amount,
           { earnedCourses := if sourceCourse then e.earnedCourses + amount
               else e.earnedCourses,
             earnedBonuses := if sourceCourse then e.earnedBonuses
               else e.earnedBonuses + amount,
             earnedTotal := e.earnedTotal + amount,
             cap := e.cap,
             capReached := if e.cap ≤ e.earnedTotal + amount then true
               else e.capReached }) := by
        simp [add_credits, hcan, hpos]
      rw [hres]
      refine ⟨hmin.symm, ?_, fun _ => rfl, ?_, rfl, ?_⟩
      · intro hcap
        exfalso
        linarith
      · rw [hmin] at *
        exact le_max_of_le_right (by linarith)
      · by_cases hcap2 : e.cap ≤ e.earnedTotal + amount
        · simp [hcap2]
        · simp only [if_neg hcap2, hflag]
          have h1 : ¬ e.cap ≤ e.earnedTotal := by
            intro h
            exact hcap2 (by linarith)
          simp [h1, hcap2]
    · have hz : amount = 0 := le_antisymm (not_lt.mp hpos) hamt
      subst hz
      have hres : add_credits e 0 sourceCourse = (0, e) := by
        simp [add_credits, hcan]
      rw [hres]
      have h0 : e.earnedTotal + 0 = e.earnedTotal := by ring
      refine ⟨?_, fun _ => rfl, fun _ => rfl, ?_, by simp, ?_⟩
      · have : min (0 : ℚ) (max 0 (e.cap - e.earnedTotal)) = 0 :=
          min_eq_left (le_max_left 0 _)
        exact this.symm
      · exact le_max_left 0 _
      · rw [hflag]
  · -- clamping branch: requested amount exceeds the headroom
    have hcan : can_earn_credits e amount = false := by
      simp [can_earn_credits]
      linarith [not_le.mp hce]
    have hclamp : (if ¬ can_earn_credits e amount = true then
        min amount (max 0 (e.cap - e.earnedTotal)) else amount) =
        min amount (max 0 (e.cap - e.earnedTotal)) := by
      simp [hcan]
    by_cases hcap : e.cap ≤ e.earnedTotal
    · -- already at or above cap: clamp to 0
      have hmax : max (0 : ℚ) (e.cap - e.earnedTotal) = 0 :=
        max_eq_left (by linarith)
      have hmin : min amount (max 0 (e.cap - e.earnedTotal)) = 0 := by
        rw [hmax]
        exact min_eq_right hamt
      have hres : add_credits e amount sourceCourse = (0, e) := by
        simp only [add_credits, hcan, Bool.false_eq_true, not_false_iff,
          if_true, hmin]
        norm_num
      rw [hres]
      refine ⟨hmin.symm, fun _ => rfl, ?_, ?_, by simp, ?_⟩
      · intro h
        exfalso
        exact hce h
      · rw [hmax]
      · rw [hflag]
    · -- below cap but requested amount overshoots: clamp to headroom
      have hlt : e.earnedTotal < e.cap := not_le.mp hcap
      have hhead : (0 : ℚ) < e.cap - e.earnedTotal := by linarith
      have hmax : max (0 : ℚ) (e.cap - e.earnedTotal) = e.cap - e.earnedTotal :=
        max_eq_right (by linarith)
      have hmin : min amount (max 0 (e.cap - e.earnedTotal)) =
          e.cap - e.earnedTotal := by
        rw [hmax]
        exact min_eq_right (by linarith [not_le.mp hce])
      have hpos : 0 < min amount (max 0 (e.cap - e.earnedTotal)) := by
        rw [hmin]
        exact hhead
      have hres : add_credits e amount sourceCourse =
          (e.cap - e.earnedTotal,
           { earnedCourses := if sourceCourse then
               e.earnedCourses + (e.cap - e.earnedTotal) else e.earnedCourses,
             earnedBonuses := if sourceCourse then e.earnedBonuses
               else e.earnedBonuses + (e.cap - e.earnedTotal),
             earnedTotal := e.earnedTotal + (e.cap - e.earnedTotal),
             cap := e.cap,
             capReached := if e.cap ≤ e.earnedTotal + (e.cap - e.earnedTotal)
               then true else e.capReached }) := by
        simp only [add_credits, hcan, Bool.false_eq_true, not_false_iff,
          if_true, hmin]
        rw [if_pos hhead]
      rw [hres]
      have htot : e.earnedTotal + (e.cap - e.earnedTotal) = e.cap := by ring
      refine ⟨hmin.symm, ?_, ?_, ?_, rfl, ?_⟩
      · intro h
        exfalso
        exact hcap h
      · intro h
        exfalso
        exact hce h
      · rw [hmax]
      · rw [htot]
        simp

/-- Witness for C7: the record with earned total 1.8 and cap 2.0,
awarded 0.5, grants exactly 0.2; the new total is 2.0 and the cap flag
is set. -/
theorem add_credits_capped_witness :
    ((0 : ℚ) ≤ 1 / 2) ∧
    ((⟨0, 0, 9 / 5, 2, false⟩ : MonthlyCreditEarning).capReached =
      decide ((2 : ℚ) ≤ 9 / 5)) ∧
    (add_credits ⟨0, 0, 9 / 5, 2, false⟩ (1 / 2) true).1 =
      min (1 / 2) (max 0 ((2 : ℚ) - 9 / 5)) ∧
    (add_credits ⟨0, 0, 9 / 5, 2, false⟩ (1 / 2) true).1 = 1 / 5 ∧
    (add_credits ⟨0, 0, 9 / 5, 2, false⟩ (1 / 2) true).2.earnedTotal = 2 ∧
    (add_credits ⟨0, 0, 9 / 5, 2, false⟩ (1 / 2) true).2.capReached = true := by
  have hflag : (⟨0, 0, 9 / 5, 2, false⟩ : MonthlyCreditEarning).capReached =
      decide ((2 : ℚ) ≤ 9 / 5) := by
    norm_num
  refine ⟨by norm_num, hflag,
    (add_credits_capped ⟨0, 0, 9 / 5, 2, false⟩ (1 / 2) true
      (by norm_num) hflag).1, ?_, ?_, ?_⟩ <;>
    norm_num [add_credits, can_earn_credits]

/-! ### Rate-limiter configuration facts -/

/-- Every configured `RATE_LIMITS` entry has positive `max_requests`
and positive `window_seconds`. -/
theorem rateLimitsLookup_pos (tier lt : String) (m w : ℕ)
    (h : rateLimitsLookup tier lt = some (m, w)) : 1 ≤ m ∧ 1 ≤ w := by
  unfold rateLimitsLookup at h
  split_ifs at h <;> simp_all <;> omega

/-- Every resolved `(max_requests, window_seconds)` pair is positive:
configured entries are, and caller-supplied values are used only when
nonzero. -/
theorem resolveLimits_pos (tier lt : String) (wOpt mOpt : Option ℕ)
    (m w : ℕ) (h : resolveLimits tier lt wOpt mOpt = some (m, w)) :
    1 ≤ m ∧ 1 ≤ w := by
  unfold resolveLimits at h
  cases hcfg : rateLimitsLookup tier lt with
  | some p =>
    obtain ⟨a, b⟩ := p
    rw [hcfg] at h
    simp only [Option.some.injEq, Prod.mk.injEq] at h
    obtain ⟨rfl, rfl⟩ := h
    exact rateLimitsLookup_pos tier lt a b hcfg
  | none =>
    rw [hcfg] at h
    cases wOpt with
    | none => simp at h
    | some w0 =>
      cases mOpt with
      | none => simp at h
      | some m0 =>
        simp only at h
        by_cases hcond : w0 ≠ 0 ∧ m0 ≠ 0
        · rw [if_pos hcond] at h
          simp only [Option.some.injEq, Prod.mk.injEq] at h
          omega
        · rw [if_neg hcond] at h
          simp at h

/-- C5 counterexample: with the store unavailable and the configured
policy (free, login) = (5, 300), `check_rate_limit` returns
`allowed = true` with remaining 4 — not the 999 sentinel the claim
demands. -/
theorem check_rate_limit_store_down_not_sentinel :
    check_rate_limit false "free" "login" none none [] 0 =
      (⟨true, 4, 0⟩, []) ∧ (4 : ℤ) ≠ 999 := by
  constructor
  · decide
  · decide

/-- C5 (amended): if the store is unavailable during `check()`, the call
still returns `allowed = true` with retry 0 and the store is untouched,
and no store error reaches the caller (the `RedisManager` wrappers catch
every exception and report default values); but the remaining count is
`max_requests - 1` (the wrappers report zero usage), the 999 sentinel
appearing only when no quota applies to the call. -/
theorem check_rate_limit_store_down_fail_open
    (tier lt : String) (wOpt mOpt : Option ℕ) (store : Store) (now : ℚ) :
    check_rate_limit false tier lt wOpt mOpt store now =
      (⟨true,
        (match resolveLimits tier lt wOpt mOpt with
         | none => 999
         | some (m, _) => (m : ℤ) - 1), 0⟩, store) := by
  unfold check_rate_limit
  cases hres : resolveLimits tier lt wOpt mOpt with
  | none => simp
  | some p =>
    obtain ⟨m, w⟩ := p
    have hm := (resolveLimits_pos tier lt wOpt mOpt m w hres).1
    simp only [Bool.false_eq_true, if_false, checkCoreDown]
    rw [if_neg (by omega : ¬ m ≤ 0)]

/-- C10: whenever a QuotaPolicy is configured for `(tier, limit_type)`,
`check_rate_limit` enforces the configured pair and ignores any
caller-supplied `max_requests` / `window_seconds`. -/
theorem check_rate_limit_config_overrides_caller
    (tier lt : String) (m w : ℕ)
    (hcfg : rateLimitsLookup tier lt = some (m, w)) :
    ∀ (avail : Bool) (wOpt mOpt : Option ℕ) (store : Store) (now : ℚ),
      check_rate_limit avail tier lt wOpt mOpt store now =
        if avail then checkCore m w store now else checkCoreDown m w store := by
  intro avail wOpt mOpt store now
  simp [check_rate_limit, resolveLimits, hcfg]

/-- Witness for C10, the `ip_rate_limit("registration", 3, 86400)`
decorator: it calls `check_rate_limit` with caller limits (3, 86400)
and default tier "free", but the configured free-tier registration
policy is (30, 86400), so with 3 requests already recorded the call is
still admitted with remaining 26 — the declared 3-per-day limit is not
what is enforced (it would already reject). -/
theorem check_rate_limit_config_overrides_caller_witness :
    rateLimitsLookup "free" "registration" = some (30, 86400) ∧
    check_rate_limit true "free" "registration" (some 86400) (some 3)
        [1, 2, 3] 4 = checkCore 30 86400 [1, 2, 3] 4 ∧
    (checkCore 30 86400 [1, 2, 3] 4).1 = ⟨true, 26, 0⟩ ∧
    (checkCore 3 86400 [1, 2, 3] 4).1.allowed = false := by
  have hcfg : rateLimitsLookup "free" "registration" = some (30, 86400) := by
    decide
  refine ⟨hcfg, ?_, ?_, ?_⟩
  · have h := check_rate_limit_config_overrides_caller "free" "registration"
      30 86400 hcfg true (some 86400) (some 3) [1, 2, 3] 4
    simpa using h
  · norm_num [checkCore, prune, keepB, List.filter, zinsert]
  · norm_num [checkCore, prune, keepB, List.filter, oldestScore,
      List.min?, List.foldl]

/-! ### Structural lemmas about one `checkCore` call -/

/-- `keepB` in propositional form. -/
theorem keepB_iff (hi s : ℚ) : keepB hi s = true ↔ ¬(0 ≤ s ∧ s ≤ hi) := by
  simp only [keepB, not_and, not_le]
  constructor
  · intro h
    simp only [Bool.not_eq_eq_eq_not, Bool.not_true, Bool.and_eq_false_imp,
      decide_eq_true_eq, decide_eq_false_iff_not, not_le] at h
    exact h
  · intro h
    simp only [Bool.not_eq_eq_eq_not, Bool.not_true, Bool.and_eq_false_imp,
      decide_eq_true_eq, decide_eq_false_iff_not, not_le]
    exact h

/-- For a non-negative score, surviving the prune means lying strictly
above the cut-off. -/
theorem keepB_iff_of_nonneg {s : ℚ} (hi : ℚ) (h : 0 ≤ s) :
    keepB hi s = true ↔ hi < s := by
  rw [keepB_iff]
  constructor
  · intro hn
    by_contra hle
    exact hn ⟨h, not_lt.mp hle⟩
  · intro hlt hc
    exact absurd hlt (not_lt.mpr hc.2)

/-- A call is admitted iff, after pruning, strictly fewer than
`max_requests` entries remain. -/
theorem checkCore_allowed_iff (q w : ℕ) (store : Store) (now : ℚ) :
    (checkCore q w store now).1.allowed = true ↔
      (prune store (now - (w : ℚ))).length < q := by
  by_cases h : q ≤ (prune store (now - (w : ℚ))).length
  · simp [checkCore, h, Nat.not_lt.mpr h]
  · simp [checkCore, h, Nat.lt_of_not_le h]

/-- Shape of a rejected `checkCore` call. -/
theorem checkCore_reject_eq (q w : ℕ) (store : Store) (now : ℚ)
    (h : q ≤ (prune store (now - (w : ℚ))).length) :
    checkCore q w store now =
      (⟨false, 0,
        match (prune store (now - (w : ℚ))).min? with
        | some t => max 1 (pytrunc (t + (w : ℚ) - now))
        | none => (w : ℤ)⟩, prune store (now - (w : ℚ))) := by
  simp only [checkCore, oldestScore]
  rw [if_pos h]

/-- Shape of an admitted `checkCore` call. -/
theorem checkCore_admit_eq (q w : ℕ) (store : Store) (now : ℚ)
    (h : (prune store (now - (w : ℚ))).length < q) :
    checkCore q w store now =
      (⟨true, (q : ℤ) - (prune store (now - (w : ℚ))).length - 1, 0⟩,
        zinsert (prune store (now - (w : ℚ))) now) := by
  simp only [checkCore, oldestScore]
  rw [if_neg (Nat.not_le.mpr h)]

/-- The least member of a list is a member and a lower bound. -/
theorem min?_spec (l : List ℚ) (a : ℚ) (h : l.min? = some a) :
    a ∈ l ∧ ∀ b ∈ l, a ≤ b :=
  ⟨List.min?_mem (fun x y => min_choice x y) h,
   fun b hb => (List.le_min?_iff (fun _ _ _ => le_min_iff) h).mp le_rfl b hb⟩

/-- C3: when a call on a configured quota `(Q, W)` is rejected over a
store of non-negative timestamps, the returned `retry_after` equals
`max(1, floor(oldest + W - now))` where `oldest` is the least surviving
entry, and equals the full window `W` when no entry survives the
prune. -/
theorem check_rate_limit_retry_after_formula
    (tier lt : String) (q w : ℕ)
    (hcfg : rateLimitsLookup tier lt = some (q, w))
    (store : Store) (now : ℚ) (hpos : ∀ s ∈ store, 0 ≤ s)
    (hrej : (check_rate_limit true tier lt none none store now).1.allowed
      = false) :
    ((prune store (now - (w : ℚ))) = [] →
      (check_rate_limit true tier lt none none store now).1.retryAfter
        = (w : ℤ)) ∧
    (∀ t, (prune store (now - (w : ℚ))).min? = some t →
      (check_rate_limit true tier lt none none store now).1.retryAfter
        = max 1 ⌊t + (w : ℚ) - now⌋) := by
  have hchk : check_rate_limit true tier lt none none store now =
      checkCore q w store now := by
    simp [check_rate_limit, resolveLimits, hcfg]
  rw [hchk] at hrej ⊢
  have hq : q ≤ (prune store (now - (w : ℚ))).length := by
    by_contra hlt
    rw [(checkCore_allowed_iff q w store now).mpr (Nat.lt_of_not_le hlt)]
      at hrej
    exact Bool.true_eq_false.mp hrej
  rw [checkCore_reject_eq q w store now hq]
  constructor
  · intro hempty
    rw [hempty]
    rfl
  · intro t hmin
    simp only [hmin]
    have ht_mem : t ∈ prune store (now - (w : ℚ)) :=
      (min?_spec _ t hmin).1
    have ht_store : t ∈ store := (List.mem_filter.mp ht_mem).1
    have htpos : 0 ≤ t := hpos t ht_store
    have hkeep : keepB (now - (w : ℚ)) t = true :=
      (List.mem_filter.mp ht_mem).2
    have hgt : now - (w : ℚ) < t := (keepB_iff_of_nonneg _ htpos).mp hkeep
    have hdelta : 0 ≤ t + (w : ℚ) - now := by linarith
    rw [pytrunc_eq_floor _ hdelta]

/-- Witness for C3: free-tier "content" policy (3, 3600), three entries
at 1, 2, 3, call at time 4: rejected, and the retry-after equals
`max(1, floor(1 + 3600 - 4))`. -/
theorem check_rate_limit_retry_after_formula_witness :
    rateLimitsLookup "free" "content" = some (3, 3600) ∧
    (∀ s ∈ ([1, 2, 3] : Store), (0 : ℚ) ≤ s) ∧
    (check_rate_limit true "free" "content" none none [1, 2, 3] 4).1.allowed
      = false ∧
    (check_rate_limit true "free" "content" none none [1, 2, 3] 4).1.retryAfter
      = max 1 ⌊(1 : ℚ) + ((3600 : ℕ) : ℚ) - 4⌋ := by
  have hcfg : rateLimitsLookup "free" "content" = some (3, 3600) := by decide
  have hpos : ∀ s ∈ ([1, 2, 3] : Store), (0 : ℚ) ≤ s := by
    intro s hs
    fin_cases hs <;> norm_num
  have hchk : check_rate_limit true "free" "content" none none [1, 2, 3] 4 =
      checkCore 3 3600 [1, 2, 3] 4 := by
    simp [check_rate_limit, resolveLimits, hcfg]
  have hprune : prune [1, 2, 3] ((4 : ℚ) - ((3600 : ℕ) : ℚ)) = [1, 2, 3] := by
    norm_num [prune, keepB, List.filter]
  have hrej : (check_rate_limit true "free" "content" none none
      [1, 2, 3] 4).1.allowed = false := by
    rw [hchk, checkCore_reject_eq 3 3600 [1, 2, 3] 4 (by rw [hprune]; norm_num)]
  have hmin : (prune [1, 2, 3] ((4 : ℚ) - ((3600 : ℕ) : ℚ))).min? = some 1 := by
    rw [hprune]
    norm_num [List.min?, List.foldl]
  exact ⟨hcfg, hpos, hrej,
    (check_rate_limit_retry_after_formula "free" "content" 3 3600 hcfg
      [1, 2, 3] 4 hpos hrej).2 1 hmin⟩

/-! ### Retry-after accuracy (C4) -/

/-- C4 counterexample: free-tier login policy (5, 300).  Five entries at
0.5..0.9; a call at time 1 is rejected with `retry_after = 299`
(`int(0.5 + 300 - 1) = int(299.5) = 299`, floored).  Retrying exactly
299 seconds later, at time 300, is rejected again: the oldest entry at
0.5 has not yet left the window (`0.5 > 300 - 300`), so the claim that
waiting exactly `retryAfterSeconds` always yields admission fails. -/
theorem check_rate_limit_exact_wait_rejected :
    (check_rate_limit true "free" "login" none none
      [1 / 2, 3 / 5, 7 / 10, 4 / 5, 9 / 10] 1).1 = ⟨false, 0, 299⟩ ∧
    (check_rate_limit true "free" "login" none none
      (check_rate_limit true "free" "login" none none
        [1 / 2, 3 / 5, 7 / 10, 4 / 5, 9 / 10] 1).2
      (1 + 299)).1.allowed = false := by
  have hcfg : rateLimitsLookup "free" "login" = some (5, 300) := by decide
  have hchk : ∀ (store : Store) (now : ℚ),
      check_rate_limit true "free" "login" none none store now =
        checkCore 5 300 store now := by
    intro store now
    simp [check_rate_limit, resolveLimits, hcfg]
  have hprune1 : prune [1 / 2, 3 / 5, 7 / 10, 4 / 5, 9 / 10]
      ((1 : ℚ) - (300 : ℕ)) = [1 / 2, 3 / 5, 7 / 10, 4 / 5, 9 / 10] := by
    norm_num [prune, keepB, List.filter]
  have heval1 : checkCore 5 300 [1 / 2, 3 / 5, 7 / 10, 4 / 5, 9 / 10] 1 =
      (⟨false, 0, 299⟩, [1 / 2, 3 / 5, 7 / 10, 4 / 5, 9 / 10]) := by
    rw [checkCore_reject_eq 5 300 _ 1 (by rw [hprune1]; norm_num)]
    rw [hprune1]
    norm_num [List.min?, List.foldl, pytrunc, Int.tdiv]
  have hprune2 : prune [1 / 2, 3 / 5, 7 / 10, 4 / 5, 9 / 10]
      ((1 + 299 : ℚ) - (300 : ℕ)) = [1 / 2, 3 / 5, 7 / 10, 4 / 5, 9 / 10] := by
    norm_num [prune, keepB, List.filter]
  have hst : (check_rate_limit true "free" "login" none none
      [1 / 2, 3 / 5, 7 / 10, 4 / 5, 9 / 10] 1).2 =
      [1 / 2, 3 / 5, 7 / 10, 4 / 5, 9 / 10] := by
    rw [hchk, heval1]
  constructor
  · rw [hchk, heval1]
  · rw [hst, hchk]
    rw [checkCore_reject_eq 5 300 _ (1 + 299) (by rw [hprune2]; norm_num)]

/-- C4 (amended): after a rejection on a configured quota `(Q, W)` over
a store of non-negative timestamps holding at most `Q` surviving
entries, waiting `retryAfterSeconds + 1` (one second more than
returned — the code floors the residual window time, so the exact wait
can undershoot) and retrying with no other consumer on the key results
in admission. -/
theorem check_rate_limit_retry_after_plus_one_admits
    (tier lt : String) (q w : ℕ)
    (hcfg : rateLimitsLookup tier lt = some (q, w)) (hq : 0 < q)
    (store : Store) (now : ℚ) (hpos : ∀ s ∈ store, 0 ≤ s)
    (hlen : (prune store (now - (w : ℚ))).length ≤ q)
    (hrej : (check_rate_limit true tier lt none none store now).1.allowed
      = false) :
    (check_rate_limit true tier lt none none
      (check_rate_limit true tier lt none none store now).2
      (now + ((check_rate_limit true tier lt none none
        store now).1.retryAfter : ℚ) + 1)).1.allowed = true := by
  have hchk : ∀ (st : Store) (t : ℚ),
      check_rate_limit true tier lt none none st t = checkCore q w st t := by
    intro st t
    simp [check_rate_limit, resolveLimits, hcfg]
  rw [hchk] at hrej
  rw [hchk, hchk]
  set store1 := prune store (now - (w : ℚ)) with hstore1
  have hqle : q ≤ store1.length := by
    by_contra hlt
    rw [(checkCore_allowed_iff q w store now).mpr (Nat.lt_of_not_le hlt)]
      at hrej
    exact Bool.true_eq_false.mp hrej
  have hne : store1 ≠ [] := by
    intro h
    rw [h] at hqle
    simp at hqle
    omega
  cases hmin : store1.min? with
  | none =>
    exact absurd (List.min?_eq_none_iff.mp hmin) hne
  | some t0 =>
    have ht0 := min?_spec store1 t0 hmin
    have ht0_store : t0 ∈ store := (List.mem_filter.mp ht0.1).1
    have ht0_pos : 0 ≤ t0 := hpos t0 ht0_store
    have ht0_keep : keepB (now - (w : ℚ)) t0 = true :=
      (List.mem_filter.mp ht0.1).2
    have ht0_gt : now - (w : ℚ) < t0 :=
      (keepB_iff_of_nonneg _ ht0_pos).mp ht0_keep
    have hdelta : (0 : ℚ) ≤ t0 + (w : ℚ) - now := by linarith
    have hshape := checkCore_reject_eq q w store now hqle
    rw [← hstore1] at hshape
    rw [hshape]
    simp only [hmin]
    -- the next call happens at now2 = now + retry + 1
    set retry : ℤ := max 1 (pytrunc (t0 + (w : ℚ) - now)) with hretry
    have hfloor : retry = max 1 ⌊t0 + (w : ℚ) - now⌋ := by
      rw [hretry, pytrunc_eq_floor _ hdelta]
    have hwait : t0 + (w : ℚ) - now < (retry : ℚ) + 1 := by
      have h1 : t0 + (w : ℚ) - now < (⌊t0 + (w : ℚ) - now⌋ : ℚ) + 1 :=
        Int.lt_floor_add_one _
      have h2 : (⌊t0 + (w : ℚ) - now⌋ : ℚ) ≤ (retry : ℚ) := by
        rw [hfloor]
        exact_mod_cast le_max_right (1 : ℤ) ⌊t0 + (w : ℚ) - now⌋
      linarith
    -- the oldest entry is pruned at the retry time
    have ht0_out : ¬ keepB (now + (retry : ℚ) + 1 - (w : ℚ)) t0 = true := by
      rw [keepB_iff_of_nonneg _ ht0_pos]
      intro hgt
      have : t0 + (w : ℚ) - now > (retry : ℚ) + 1 := by linarith
      linarith
    have hshrink : (prune store1 (now + (retry : ℚ) + 1 - (w : ℚ))).length <
        store1.length :=
      List.length_filter_lt_length_iff_exists.mpr ⟨t0, ht0.1, ht0_out⟩
    exact (checkCore_allowed_iff q w store1 (now + (retry : ℚ) + 1)).mpr
      (lt_of_lt_of_le hshrink hlen)

/-- Witness for C4 (amended): the same five-entry login store; after the
rejection at time 1 with retry 299, calling at time 1 + 299 + 1 = 301 is
admitted. -/
theorem check_rate_limit_retry_after_plus_one_admits_witness :
    rateLimitsLookup "free" "login" = some (5, 300) ∧ 0 < 5 ∧
    (∀ s ∈ ([1 / 2, 3 / 5, 7 / 10, 4 / 5, 9 / 10] : Store), (0 : ℚ) ≤ s) ∧
    (prune [1 / 2, 3 / 5, 7 / 10, 4 / 5, 9 / 10]
      ((1 : ℚ) - (300 : ℕ))).length ≤ 5 ∧
    (check_rate_limit true "free" "login" none none
      [1 / 2, 3 / 5, 7 / 10, 4 / 5, 9 / 10] 1).1.allowed = false ∧
    (check_rate_limit true "free" "login" none none
      (check_rate_limit true "free" "login" none none
        [1 / 2, 3 / 5, 7 / 10, 4 / 5, 9 / 10] 1).2
      (1 + ((check_rate_limit true "free" "login" none none
        [1 / 2, 3 / 5, 7 / 10, 4 / 5, 9 / 10] 1).1.retryAfter : ℚ) +
        1)).1.allowed = true := by
  have hcfg : rateLimitsLookup "free" "login" = some (5, 300) := by decide
  have hpos : ∀ s ∈ ([1 / 2, 3 / 5, 7 / 10, 4 / 5, 9 / 10] : Store),
      (0 : ℚ) ≤ s := by
    intro s hs
    fin_cases hs <;> norm_num
  have hprune1 : prune [1 / 2, 3 / 5, 7 / 10, 4 / 5, 9 / 10]
      ((1 : ℚ) - (300 : ℕ)) = [1 / 2, 3 / 5, 7 / 10, 4 / 5, 9 / 10] := by
    norm_num [prune, keepB, List.filter]
  have hlen : (prune [1 / 2, 3 / 5, 7 / 10, 4 / 5, 9 / 10]
      ((1 : ℚ) - (300 : ℕ))).length ≤ 5 := by
    rw [hprune1]
    simp
  have hrej : (check_rate_limit true "free" "login" none none
      [1 / 2, 3 / 5, 7 / 10, 4 / 5, 9 / 10] 1).1.allowed = false := by
    have hchk : check_rate_limit true "free" "login" none none
        [1 / 2, 3 / 5, 7 / 10, 4 / 5, 9 / 10] 1 =
        checkCore 5 300 [1 / 2, 3 / 5, 7 / 10, 4 / 5, 9 / 10] 1 := by
      simp [check_rate_limit, resolveLimits, hcfg]
    rw [hchk, checkCore_reject_eq 5 300 _ 1 (by rw [hprune1]; norm_num)]
  exact ⟨hcfg, by norm_num, hpos, hlen, hrej,
    check_rate_limit_retry_after_plus_one_admits "free" "login" 5 300 hcfg
      (by norm_num) [1 / 2, 3 / 5, 7 / 10, 4 / 5, 9 / 10] 1 hpos hlen hrej⟩

/-! ### Sliding-window correctness (C1) -/

/-- Membership of a score in the half-open window `(a, a + W]`. -/
def inWindowB (a wq : ℚ) (s : ℚ) : Bool :=
  decide (a < s) && decide (s ≤ a + wq)

/-- Pruning twice with increasing cut-offs is pruning once with the
later cut-off. -/
theorem prune_prune (l : List ℚ) (h1 h2 : ℚ) (hle : h1 ≤ h2) :
    prune (prune l h1) h2 = prune l h2 := by
  unfold prune
  rw [List.filter_filter]
  apply List.filter_congr
  intro a _
  cases hk2 : keepB h2 a with
  | false => simp
  | true =>
    simp only [Bool.true_and]
    rw [keepB_iff] at hk2 ⊢
    intro hc
    exact hk2 ⟨hc.1, hc.2.trans hle⟩

/-- Counting a strictly smaller predicate plus the multiplicity of a
point it misses is bounded by the larger predicate's count. -/
theorem countP_add_count_le (l : List ℚ) (p pq : ℚ → Bool) (t : ℚ)
    (himp : ∀ s, p s = true → pq s = true) (hqt : pq t = true)
    (hpt : p t = false) :
    l.countP p + l.count t ≤ l.countP pq := by
  induction l with
  | nil => simp
  | cons x l ih =>
    rw [List.countP_cons, List.countP_cons, List.count_cons]
    by_cases hx : x = t
    · subst hx
      simp only [hpt, hqt, beq_self_eq_true, Bool.false_eq_true, if_false,
        if_true, reduceIte]
      omega
    · have hbe : (x == t) = false := beq_false_of_ne hx
      cases hpx : p x with
      | false =>
        simp only [hbe, hpx, Bool.false_eq_true, reduceIte]
        cases hqx : pq x with
        | false => simp only [Bool.false_eq_true, reduceIte]; omega
        | true => simp only [reduceIte]; omega
      | true =>
        simp only [hbe, hpx, himp x hpx, Bool.false_eq_true, reduceIte]
        omega

/-- The run of `admittedTimes` under a configured policy is the run of
the core algorithm. -/
theorem admittedTimes_eq_admittedCore (tier lt : String) (q w : ℕ)
    (hcfg : rateLimitsLookup tier lt = some (q, w)) :
    ∀ (ts : List ℚ) (store : Store),
      admittedTimes tier lt store ts = admittedCore q w store ts := by
  intro ts
  induction ts with
  | nil => intro store; rfl
  | cons t ts ih =>
    intro store
    have hchk : check_rate_limit true tier lt none none store t =
        checkCore q w store t := by
      simp [check_rate_limit, resolveLimits, hcfg]
    simp only [admittedTimes, admittedCore, hchk, ih]

/-- `inWindowB` in propositional form. -/
theorem inWindowB_iff (a wq s : ℚ) :
    inWindowB a wq s = true ↔ a < s ∧ s ≤ a + wq := by
  simp [inWindowB]

/-- Invariant of a run of the core limiter: starting from the store
obtained by pruning the list `A` of previously admitted timestamps at
the last call time `T`, if every rolling window of width `W` holds at
most `Q` of the admitted timestamps, the same bound holds after any
further strictly increasing sequence of calls. -/
theorem admittedCore_window_inv (q w : ℕ) (hw : 0 < w) :
    ∀ (ts A : List ℚ) (T : ℚ),
      (∀ x ∈ A, x ≤ T) →
      (∀ t ∈ ts, T < t) →
      List.Pairwise (· < ·) ts →
      (∀ a : ℚ, A.countP (inWindowB a (w : ℚ)) ≤ q) →
      ∀ a : ℚ,
        (A ++ admittedCore q w (prune A (T - (w : ℚ))) ts).countP
          (inWindowB a (w : ℚ)) ≤ q := by
  intro ts
  induction ts with
  | nil =>
    intro A T _ _ _ hcount a
    simpa [admittedCore] using hcount a
  | cons t ts ih =>
    intro A T hA hT hpw hcount a
    have hTt : T < t := hT t (List.mem_cons_self t ts)
    have hwq : (0 : ℚ) < (w : ℚ) := by exact_mod_cast hw
    have hpp : prune (prune A (T - (w : ℚ))) (t - (w : ℚ)) =
        prune A (t - (w : ℚ)) :=
      prune_prune A _ _ (by linarith)
    have hpair := List.pairwise_cons.mp hpw
    by_cases hdec : q ≤ (prune A (t - (w : ℚ))).length
    · -- this call is rejected; the admitted set is unchanged
      have hrej := checkCore_reject_eq q w (prune A (T - (w : ℚ))) t
        (by rw [hpp]; exact hdec)
      simp only [admittedCore, hrej, Bool.false_eq_true, if_false, hpp]
      exact ih A t (fun x hx => le_of_lt (lt_of_le_of_lt (hA x hx) hTt))
        hpair.1 hpair.2 hcount a
    · -- this call is admitted; t joins the admitted set
      have hlt : (prune A (t - (w : ℚ))).length < q := Nat.lt_of_not_le hdec
      have hadm := checkCore_admit_eq q w (prune A (T - (w : ℚ))) t
        (by rw [hpp]; exact hlt)
      simp only [admittedCore, hadm, if_true]
      have htnot : t ∉ prune (prune A (T - (w : ℚ))) (t - (w : ℚ)) := by
        rw [hpp]
        intro hmem
        have hxA : t ∈ A := (List.mem_filter.mp hmem).1
        have := hA t hxA
        linarith
      have hzin : zinsert (prune (prune A (T - (w : ℚ))) (t - (w : ℚ))) t =
          prune (A ++ [t]) (t - (w : ℚ)) := by
        rw [zinsert, if_neg htnot, hpp]
        unfold prune
        rw [List.filter_append]
        have hk : keepB (t - (w : ℚ)) t = true := by
          rw [keepB_iff]
          intro hc
          linarith [hc.2]
        simp [hk]
      have hcount' : ∀ b : ℚ, (A ++ [t]).countP (inWindowB b (w : ℚ)) ≤ q := by
        intro b
        rw [List.countP_append]
        cases hbw : inWindowB b (w : ℚ) t with
        | false =>
          have hsingle : ([t] : List ℚ).countP (inWindowB b (w : ℚ)) = 0 := by
            simp [List.countP_cons, hbw]
          rw [hsingle]
          simpa using hcount b
        | true =>
          obtain ⟨hb1, hb2⟩ := (inWindowB_iff b (w : ℚ) t).mp hbw
          have hmono : A.countP (inWindowB b (w : ℚ)) ≤
              A.countP (keepB (t - (w : ℚ))) := by
            apply List.countP_mono_left
            intro x _ hpx
            obtain ⟨hx1, _⟩ := (inWindowB_iff b (w : ℚ) x).mp hpx
            rw [keepB_iff]
            intro hc
            have hxb : x ≤ b := by linarith [hc.2]
            linarith
          have hfl : A.countP (keepB (t - (w : ℚ))) =
              (prune A (t - (w : ℚ))).length :=
            List.countP_eq_length_filter _ _
          have hsingle : ([t] : List ℚ).countP (inWindowB b (w : ℚ)) = 1 := by
            simp [List.countP_cons, hbw]
          rw [hsingle]
          omega
      have hA' : ∀ x ∈ A ++ [t], x ≤ t := by
        intro x hx
        rcases List.mem_append.mp hx with h | h
        · exact le_of_lt (lt_of_le_of_lt (hA x h) hTt)
        · simp only [List.mem_singleton] at h
          exact le_of_eq h
      have hrec := ih (A ++ [t]) t hA' hpair.1 hpair.2 hcount' a
      have hshape : A ++ t :: admittedCore q w
          (prune (A ++ [t]) (t - (w : ℚ))) ts =
          (A ++ [t]) ++ admittedCore q w
            (prune (A ++ [t]) (t - (w : ℚ))) ts := by
        simp
      rw [hzin, hshape]
      exact hrec

/-- C1: for a key with configured quota `(Q, W)`: (i) a call is admitted
iff, after pruning entries with `occurredAt <= now - W`, fewer than `Q`
entries remain; (ii) over any strictly increasing sequence of
non-negative call times starting from an empty store, at most `Q` calls
are admitted in any rolling window `(a, a + W]`; (iii) consequently a
call that still has `Q` admitted predecessors inside its window is
rejected — equivalently, every admitted call had fewer than `Q`
admitted calls in the preceding open window of width `W`. -/
theorem check_rate_limit_window_correctness
    (tier lt : String) (q w : ℕ)
    (hcfg : rateLimitsLookup tier lt = some (q, w)) (hw : 0 < w)
    (store : Store) (now : ℚ) (ts : List ℚ)
    (hts : List.Pairwise (· < ·) ts) (hts0 : ∀ t ∈ ts, 0 ≤ t) :
    ((check_rate_limit true tier lt none none store now).1.allowed = true ↔
      (prune store (now - (w : ℚ))).length < q) ∧
    (∀ a : ℚ,
      (admittedTimes tier lt [] ts).countP (inWindowB a (w : ℚ)) ≤ q) ∧
    (∀ t ∈ admittedTimes tier lt [] ts,
      (admittedTimes tier lt [] ts).countP
        (fun s => decide (t - (w : ℚ) < s) && decide (s < t)) < q) := by
  have hwq : (0 : ℚ) < (w : ℚ) := by exact_mod_cast hw
  have hchk : check_rate_limit true tier lt none none store now =
      checkCore q w store now := by
    simp [check_rate_limit, resolveLimits, hcfg]
  have hcore : admittedTimes tier lt [] ts = admittedCore q w [] ts :=
    admittedTimes_eq_admittedCore tier lt q w hcfg ts []
  have hbound : ∀ a : ℚ,
      (admittedTimes tier lt [] ts).countP (inWindowB a (w : ℚ)) ≤ q := by
    intro a
    have h := admittedCore_window_inv q w hw ts [] (-1)
      (by intro x hx; simp at hx)
      (by intro t ht; linarith [hts0 t ht])
      hts
      (by intro b; simp)
      a
    simpa [hcore, prune] using h
  refine ⟨?_, hbound, ?_⟩
  · rw [hchk]
    exact checkCore_allowed_iff q w store now
  · intro t htmem
    have hq1 := hbound (t - (w : ℚ))
    have himp : ∀ s : ℚ,
        (decide (t - (w : ℚ) < s) && decide (s < t)) = true →
          inWindowB (t - (w : ℚ)) (w : ℚ) s = true := by
      intro s hs
      simp only [Bool.and_eq_true, decide_eq_true_eq] at hs
      rw [inWindowB_iff]
      constructor
      · exact hs.1
      · linarith [hs.2]
    have hqt : inWindowB (t - (w : ℚ)) (w : ℚ) t = true := by
      rw [inWindowB_iff]
      constructor
      · linarith
      · linarith
    have hpt : (decide (t - (w : ℚ) < t) && decide (t < t)) = false := by
      simp
    have hcnt := countP_add_count_le (admittedTimes tier lt [] ts)
      (fun s => decide (t - (w : ℚ) < s) && decide (s < t))
      (inWindowB (t - (w : ℚ)) (w : ℚ)) t himp hqt hpt
    have hone : 1 ≤ (admittedTimes tier lt [] ts).count t :=
      List.count_pos_iff.mpr htmem
    omega

/-- Witness for C1, concrete scenario 1: free-tier login policy
(5, 300); six calls at 0.1, 0.2, 0.3, 0.4, 0.5, 0.6 seconds.  The first
five are each admitted, the sixth is rejected, and the rolling-window
bound holds. -/
theorem check_rate_limit_window_correctness_witness :
    rateLimitsLookup "free" "login" = some (5, 300) ∧ 0 < 300 ∧
    List.Pairwise (· < ·)
      ([1 / 10, 1 / 5, 3 / 10, 2 / 5, 1 / 2, 3 / 5] : List ℚ) ∧
    (∀ t ∈ ([1 / 10, 1 / 5, 3 / 10, 2 / 5, 1 / 2, 3 / 5] : List ℚ),
      (0 : ℚ) ≤ t) ∧
    admittedTimes "free" "login" [] [1 / 10, 1 / 5, 3 / 10, 2 / 5, 1 / 2, 3 / 5]
      = [1 / 10, 1 / 5, 3 / 10, 2 / 5, 1 / 2] ∧
    (∀ a : ℚ,
      (admittedTimes "free" "login" []
        [1 / 10, 1 / 5, 3 / 10, 2 / 5, 1 / 2, 3 / 5]).countP
          (inWindowB a ((300 : ℕ) : ℚ)) ≤ 5) := by
  have hcfg : rateLimitsLookup "free" "login" = some (5, 300) := by decide
  have hpw : List.Pairwise (· < ·)
      ([1 / 10, 1 / 5, 3 / 10, 2 / 5, 1 / 2, 3 / 5] : List ℚ) := by
    norm_num [List.pairwise_cons]
  have hpos : ∀ t ∈ ([1 / 10, 1 / 5, 3 / 10, 2 / 5, 1 / 2, 3 / 5] : List ℚ),
      (0 : ℚ) ≤ t := by
    intro t ht
    fin_cases ht <;> norm_num
  have hadm : admittedTimes "free" "login" []
      [1 / 10, 1 / 5, 3 / 10, 2 / 5, 1 / 2, 3 / 5]
      = [1 / 10, 1 / 5, 3 / 10, 2 / 5, 1 / 2] := by
    rw [admittedTimes_eq_admittedCore "free" "login" 5 300 hcfg]
    norm_num [admittedCore, checkCore, prune, keepB, zinsert, List.filter,
      List.min?, List.foldl, oldestScore, pytrunc, Int.tdiv]
  exact ⟨hcfg, by norm_num, hpw, hpos, hadm,
    (check_rate_limit_window_correctness "free" "login" 5 300 hcfg
      (by norm_num) [] 0 [1 / 10, 1 / 5, 3 / 10, 2 / 5, 1 / 2, 3 / 5]
      hpw hpos).2.1⟩
